import Mathlib

/-!
Verification of the token-usage accounting core of the repository
(`app/services/token_usage.py`) and of the token-inventory pagination
contract exercised by `tests/test_admin_tokens_list_pagination.py`.

Strings are embedded as `List Char` (Python `str` is a sequence of code
points; `Char.toNat` is `ord`).  Dynamically typed Python values reaching
the functions are embedded as the inductive `PyVal`; Python operations
that can raise are embedded as `Except PyErr`.
-/

/- ========================= DEFINITIONS ========================= -/

/-- Loop body of `_count_tokens`: one step of the character-classifying
fold, carrying `(ascii_count, non_ascii)`. -/
def countStep (acc : Nat × Nat) (ch : Char) : Nat × Nat :=
  if ch.toNat ≤ 0x7F then (acc.1 + 1, acc.2) else (acc.1, acc.2 + 1)

/-- Embedding of `_count_tokens` (token_usage.py lines 8-18):
`if not text: return 0`, then count ASCII (`ord(ch) <= 0x7F`) and
non-ASCII characters and return `(ascii_count + 3) // 4 + non_ascii`. -/
def _count_tokens (text : List Char) : Nat :=
  if text = [] then 0
  else
    let counts := text.foldl countStep (0, 0)
    (counts.1 + 3) / 4 + counts.2

/-- Number of characters with code point at most `0x7F` (spec wording). -/
def asciiCount (s : List Char) : Nat :=
  s.countP (fun c => decide (c.toNat ≤ 0x7F))

/-- Number of characters with code point above `0x7F` (spec wording). -/
def nonAsciiCount (s : List Char) : Nat :=
  s.countP (fun c => decide (0x7F < c.toNat))

/-- Ceiling division on naturals, used to state the spec's `ceil(a/4)`. -/
def ceilDiv (a b : Nat) : Nat := (a + b - 1) / b

/-- Embedding of the dynamically typed Python values that can reach the
usage functions: `None`, `int`, `str`, `list`, `dict` (string keys). -/
inductive PyVal where
  | none
  | int (k : Int)
  | str (s : List Char)
  | list (xs : List PyVal)
  | dict (fields : List (List Char × PyVal))

/-- Python truthiness of an embedded value. -/
def PyVal.truthy : PyVal → Bool
  | .none => false
  | .int k => k != 0
  | .str s => !s.isEmpty
  | .list xs => !xs.isEmpty
  | .dict d => !d.isEmpty

/-- Embedding of Python `a or b`. -/
def pyOr (a b : PyVal) : PyVal := if a.truthy then a else b

mutual
/-- Embedding of Python `str(...)` on the embedded values.  Container
cases follow Python's repr-based form; quote-escaping inside nested
strings is not modelled (no theorem depends on the container cases). -/
def pyStr : PyVal → List Char
  | .none => "None".data
  | .int k => (toString k).data
  | .str s => s
  | .list xs => '[' :: (pyListRepr xs ++ [']'])
  | .dict d => Char.ofNat 0x7B :: (pyDictRepr d ++ [Char.ofNat 0x7D])

/-- Python `repr(...)`, as used when a container is converted to `str`. -/
def pyRepr : PyVal → List Char
  | .none => "None".data
  | .int k => (toString k).data
  | .str s => Char.ofNat 0x27 :: (s ++ [Char.ofNat 0x27])
  | .list xs => '[' :: (pyListRepr xs ++ [']'])
  | .dict d => Char.ofNat 0x7B :: (pyDictRepr d ++ [Char.ofNat 0x7D])

/-- Comma-joined reprs of a list's elements. -/
def pyListRepr : List PyVal → List Char
  | [] => []
  | [x] => pyRepr x
  | x :: y :: rest => pyRepr x ++ (", ".data ++ pyListRepr (y :: rest))

/-- Comma-joined `key: value` reprs of a dict's entries. -/
def pyDictRepr : List (List Char × PyVal) → List Char
  | [] => []
  | [(k, v)] => pyRepr (.str k) ++ (": ".data ++ pyRepr v)
  | (k, v) :: e :: rest =>
      pyRepr (.str k) ++ (": ".data ++ pyRepr v) ++ (", ".data ++ pyDictRepr (e :: rest))
end

/-- Whitespace characters stripped by Python's `int(str)` conversion
(ASCII part; exotic unicode spaces are not modelled). -/
def pyIsSpace (c : Char) : Bool :=
  c == ' ' || c == '\t' || c == '\n' || c == '\r' ||
    c == Char.ofNat 0x0B || c == Char.ofNat 0x0C

/-- Strip leading and trailing whitespace. -/
def stripEnds (s : List Char) : List Char :=
  ((s.dropWhile pyIsSpace).reverse.dropWhile pyIsSpace).reverse

/-- Numeric value of a string of decimal digits. -/
def digitsToNat (l : List Char) : Nat :=
  l.foldl (fun acc c => acc * 10 + (c.toNat - '0'.toNat)) 0

/-- A non-empty all-digit string parses; anything else does not. -/
def parseDigits (l : List Char) : Option Int :=
  if l ≠ [] ∧ l.all Char.isDigit then some (digitsToNat l : Int) else none

/-- Errors the embedded fragment of Python can raise. -/
inductive PyErr where
  | valueError
  | typeError
deriving DecidableEq

/-- Embedding of Python `int(...)`: integers pass through; strings are
parsed after stripping surrounding whitespace, with an optional sign
(digit-group underscores and non-ASCII digits are not modelled) and raise
`ValueError` when unparsable; `None` and containers raise `TypeError`. -/
def pyToInt : PyVal → Except PyErr Int
  | .int k => .ok k
  | .str s =>
    let t := stripEnds s
    match t with
    | c :: rest =>
      if c = '-' then
        match parseDigits rest with
        | some n => .ok (-n)
        | Option.none => .error .valueError
      else if c = '+' then
        match parseDigits rest with
        | some n => .ok n
        | Option.none => .error .valueError
      else
        match parseDigits (c :: rest) with
        | some n => .ok n
        | Option.none => .error .valueError
    | [] => .error .valueError
  | _ => .error .typeError

/-- `input_tokens_details` of the image usage report. -/
structure ImageInputDetails where
  text_tokens : Nat
  image_tokens : Nat
deriving DecidableEq

/-- The `_raw` mirror carried by both usage reports. -/
structure RawUsage where
  reasoning_tokens : Nat
  cached_tokens : Nat
  input_tokens : Nat
  output_tokens : Nat
deriving DecidableEq

/-- Shape of the report returned by `build_image_usage`. -/
structure ImageUsage where
  total_tokens : Nat
  input_tokens : Nat
  output_tokens : Nat
  input_tokens_details : ImageInputDetails
  rawMirror : RawUsage
deriving DecidableEq

/-- Embedding of `build_image_usage` (token_usage.py lines 95-110):
`text_tokens = _count_tokens(str(prompt or ""))`,
`success = max(1, int(success_count or 1))`,
`total_tokens = text_tokens * success`.  The `int(...)` conversion can
raise, so the result is an `Except`.  The Python dict's `_raw` entry is
the `rawMirror` field. -/
def build_image_usage (prompt : PyVal) (success_count : PyVal) :
    Except PyErr ImageUsage :=
  let text_tokens := _count_tokens (pyStr (pyOr prompt (.str [])))
  match pyToInt (pyOr success_count (.int 1)) with
  | .error e => .error e
  | .ok n =>
    let success := max 1 n
    let total_tokens := text_tokens * success.toNat
    .ok {
      total_tokens := total_tokens
      input_tokens := total_tokens
      output_tokens := 0
      input_tokens_details := { text_tokens := text_tokens, image_tokens := 0 }
      rawMirror := { reasoning_tokens := 0, cached_tokens := 0,
                     input_tokens := total_tokens, output_tokens := 0 } }

/-- The reasoning-span opening marker `"<think>"`. -/
def thinkOpen : List Char := "<think>".data

/-- The reasoning-span closing marker `"</think>"`. -/
def thinkClose : List Char := "</think>".data

/-- Auxiliary scan of Python's `str.find`: absolute index of the first
occurrence of `pat` in the remaining text, `none` for Python's `-1`. -/
def findFromAux (pat : List Char) : List Char → Nat → Option Nat
  | [], i => if pat = [] then some i else Option.none
  | c :: rest, i =>
      if (c :: rest).take pat.length = pat then some i
      else findFromAux pat rest (i + 1)

/-- Embedding of Python `text.find(pat, start)`. -/
def findFrom (text pat : List Char) (start : Nat) : Option Nat :=
  findFromAux pat (text.drop start) start

/-- The `while True` loop of `_split_think` (token_usage.py lines 26-36),
with its state `(reasoning_parts, output, start)`.  `fuel` bounds the
number of iterations; each iteration removes a whole delimited span
(at least 15 characters) from `output`, so the `text.length + 1` passed
by `_split_think` is never exhausted and the `0` branch is unreachable
from there. -/
def splitThinkLoop (fuel : Nat) (acc : List (List Char))
    (output : List Char) (start : Nat) : List (List Char) × List Char :=
  match fuel with
  | 0 => (acc, output)
  | fuel + 1 =>
    match findFrom output thinkOpen start with
    | Option.none => (acc, output)
    | some s =>
      match findFrom output thinkClose (s + 7) with
      | Option.none => (acc, output)
      | some e =>
          splitThinkLoop fuel (acc ++ [(output.drop (s + 7)).take (e - (s + 7))])
            (output.take s ++ output.drop (e + 8)) s

/-- Embedding of `_split_think` (token_usage.py lines 21-37): returns
`("\n".join(reasoning_parts), output)`. -/
def _split_think (text : List Char) : List Char × List Char :=
  if text = [] then ([], [])
  else
    let r := splitThinkLoop (text.length + 1) [] text 0
    (List.intercalate ['\n'] r.1, r.2)

/-- `pat` occurs as a substring of `text` at index `i`. -/
def occursAt (pat text : List Char) (i : Nat) : Prop :=
  (text.drop i).take pat.length = pat

instance (pat text : List Char) (i : Nat) : Decidable (occursAt pat text i) := by
  unfold occursAt; exact inferInstance

/-- `pat` occurs nowhere in `text` (for non-empty `pat` an occurrence
index is always below the length, so the bound loses nothing). -/
def noOccur (pat text : List Char) : Prop :=
  ∀ i < text.length, ¬ occursAt pat text i

instance (pat text : List Char) : Decidable (noOccur pat text) := by
  unfold noOccur; exact inferInstance

/-- `pat` cannot straddle a seam with a copy of itself: no proper
nonempty suffix of an occurrence can start another occurrence. -/
def noSelfOverlap (pat : List Char) : Prop :=
  ∀ m < pat.length, 0 < m → pat.drop m ≠ pat.take (pat.length - m)

instance (pat : List Char) : Decidable (noSelfOverlap pat) := by
  unfold noSelfOverlap; exact inferInstance

/-- Text containing exactly the given reasoning spans: each pair
`(gap, body)` contributes `gap ++ "<think>" ++ body ++ "</think>"`, and
`tail` follows the last span. -/
def renderSpans (spans : List (List Char × List Char)) (tail : List Char) :
    List Char :=
  match spans with
  | [] => tail
  | (g, b) :: rest =>
      g ++ (thinkOpen ++ (b ++ (thinkClose ++ renderSpans rest tail)))

/-- The visible text that remains once every span is excised. -/
def gapsConcat (spans : List (List Char × List Char)) (tail : List Char) :
    List Char :=
  match spans with
  | [] => tail
  | (g, _) :: rest => g ++ gapsConcat rest tail

/-- Well-formed, non-overlapping spans: no gap and no body contains
either marker. -/
def cleanSpans (spans : List (List Char × List Char)) : Prop :=
  ∀ p ∈ spans,
    (noOccur thinkOpen p.1 ∧ noOccur thinkClose p.1) ∧
      (noOccur thinkOpen p.2 ∧ noOccur thinkClose p.2)

instance (spans : List (List Char × List Char)) : Decidable (cleanSpans spans) := by
  unfold cleanSpans; exact inferInstance

/-- A Python dict with string keys, the type of one chat message
(`messages: List[Dict[str, Any]]`). -/
def PyDict := List (List Char × PyVal)

/-- Embedding of Python `dict.get(key)`: the key's value, `None` when the
key is absent (keys of a Python dict are unique, so first match). -/
def dictGet (d : PyDict) (key : List Char) : PyVal :=
  match d with
  | [] => .none
  | (k, v) :: rest => if k = key then v else dictGet rest key

/-- Embedding of `item.get("type") == "text"`: Python `==` between a
string and a non-string is `False`. -/
def isTextTag : PyVal → Bool
  | .str s => decide (s = "text".data)
  | _ => false

/-- The guard `if t.strip():` — `t` has a non-whitespace character. -/
def hasNonWs (t : List Char) : Bool := t.any (fun c => !(pyIsSpace c))

/-- Inner loop body of `estimate_prompt_tokens` over a structured content
list (token_usage.py lines 46-50): append `str(item.get("text") or "")`
when the item is a dict tagged `type == "text"` and the value is
non-blank. -/
def contentItemStep (parts : List (List Char)) (item : PyVal) :
    List (List Char) :=
  match item with
  | .dict d =>
    if isTextTag (dictGet d "type".data) then
      let t := pyStr (pyOr (dictGet d "text".data) (.str []))
      if hasNonWs t then parts ++ [t] else parts
    else parts
  | _ => parts

/-- Outer loop body of `estimate_prompt_tokens` over the messages
(token_usage.py lines 43-52): structured content goes through the inner
loop, anything else is collected as `str(content or "")` when
non-blank. -/
def messageStep (parts : List (List Char)) (msg : PyDict) :
    List (List Char) :=
  match dictGet msg "content".data with
  | .list items => items.foldl contentItemStep parts
  | content =>
      let t := pyStr (pyOr content (.str []))
      if hasNonWs t then parts ++ [t] else parts

/-- Result shape of `estimate_prompt_tokens`. -/
structure PromptEstimate where
  text_tokens : Nat
  image_tokens : Nat
  prompt_tokens : Nat
deriving DecidableEq

/-- Embedding of `estimate_prompt_tokens` (token_usage.py lines 40-60):
collect the text fragments, join them with `"\n"`, tokenize the joined
string once; `image_tokens` stays `0`. -/
def estimate_prompt_tokens (messages : List PyDict) : PromptEstimate :=
  let text_parts := messages.foldl messageStep []
  let image_tokens := 0
  let text_tokens := _count_tokens (List.intercalate ['\n'] text_parts)
  { text_tokens := text_tokens, image_tokens := image_tokens,
    prompt_tokens := text_tokens + image_tokens }

/-- The fragment contributed by one structured content part, following
the spec's words: the `text` of a part tagged `type == "text"` whose
trimmed value is non-empty. -/
def itemFragment (item : PyVal) : Option (List Char) :=
  match item with
  | .dict d =>
    if isTextTag (dictGet d "type".data) then
      let t := pyStr (pyOr (dictGet d "text".data) (.str []))
      if hasNonWs t then some t else Option.none
    else Option.none
  | _ => Option.none

/-- The fragments one message contributes, following the spec's words:
structured content contributes its qualifying text parts, anything else
is treated as a plain string and kept when non-blank. -/
def specMsgFragments (msg : PyDict) : List (List Char) :=
  match dictGet msg "content".data with
  | .list items => items.filterMap itemFragment
  | content =>
      let t := pyStr (pyOr content (.str []))
      if hasNonWs t then [t] else []

/-- All fragments the spec says the Prompt Extractor collects, in
order. -/
def specFragments : List PyDict → List (List Char)
  | [] => []
  | msg :: rest => specMsgFragments msg ++ specFragments rest

/-- `prompt_tokens_details` of the chat usage report. -/
structure PromptDetails where
  cached_tokens : Nat
  text_tokens : Nat
  audio_tokens : Nat
  image_tokens : Nat
deriving DecidableEq

/-- `completion_tokens_details` of the chat usage report. -/
structure CompletionDetails where
  text_tokens : Nat
  audio_tokens : Nat
  reasoning_tokens : Nat
deriving DecidableEq

/-- Shape of the report returned by `build_chat_usage`; the Python dict's
`_raw` entry is the `rawMirror` field. -/
structure ChatUsage where
  prompt_tokens : Nat
  completion_tokens : Nat
  total_tokens : Nat
  prompt_tokens_details : PromptDetails
  completion_tokens_details : CompletionDetails
  rawMirror : RawUsage
deriving DecidableEq

/-- Embedding of `build_chat_usage` (token_usage.py lines 63-92).
`completion_text or ""` is the identity on the typed `str` argument
(when it is empty both branches are the empty string), so the argument is
passed to `_split_think` directly. -/
def build_chat_usage (messages : List PyDict) (completion_text : List Char) :
    ChatUsage :=
  let prompt := estimate_prompt_tokens messages
  let split := _split_think completion_text
  let reasoning_text := split.1
  let output_text := split.2
  let completion_text_tokens := _count_tokens output_text
  let reasoning_tokens := _count_tokens reasoning_text
  let output_tokens := completion_text_tokens + reasoning_tokens
  let input_tokens := prompt.prompt_tokens
  let total_tokens := input_tokens + output_tokens
  { prompt_tokens := input_tokens
    completion_tokens := output_tokens
    total_tokens := total_tokens
    prompt_tokens_details := { cached_tokens := 0,
                               text_tokens := prompt.text_tokens,
                               audio_tokens := 0,
                               image_tokens := prompt.image_tokens }
    completion_tokens_details := { text_tokens := completion_text_tokens,
                                   audio_tokens := 0,
                                   reasoning_tokens := reasoning_tokens }
    rawMirror := { reasoning_tokens := reasoning_tokens, cached_tokens := 0,
                   input_tokens := input_tokens, output_tokens := output_tokens } }

/-- One token-inventory record (spec section 3 data model; the secondary
heavy-quota tier of the privileged category is omitted because the
pagination stage treats records opaquely). -/
structure TokenRecord where
  token : List Char
  status : List Char
  quota : Int
  quota_known : Bool
  note : List Char
deriving DecidableEq

/-- Resolved `per_page`: a per-page record count or the no-limit
sentinel. -/
inductive PerPage where
  | num (n : Nat)
  | all
deriving DecidableEq

/-- Modelled from the spec: resolution of the `per_page` parameter of the
Token Inventory Query (spec section 4.5; the implementation
`app.api.v1.admin.get_tokens_api` is not among the sources, only its
tests).  Default 30 when unspecified; the string `"all"` selects the
no-limit sentinel; a numeric string is parsed to an integer; parse
failure falls back to the default.  The spec restricts numeric values to
positive integers, so non-positive numbers are outside the specified
domain (they are truncated at 0 here). -/
def resolvePerPage (v : Option PyVal) : PerPage :=
  match v with
  | Option.none => .num 30
  | some (.int k) => .num k.toNat
  | some (.str s) =>
      if s = "all".data then .all
      else
        match pyToInt (.str s) with
        | .ok k => .num k.toNat
        | .error _ => .num 30
  | some _ => .num 30

/-- Result shape of the Token Inventory Query (spec section 3
QueryResult): the sliced items, the pre-pagination `total`, the clamped
`page`, the echoed `per_page`, and the page count. -/
structure QueryResult where
  items : List TokenRecord
  total : Nat
  page : Nat
  per_page : PyVal
  pages : Nat

/-- Modelled from the spec: the pagination stage of the Token Inventory
Query (spec section 4.5 steps 6-7 and its defaults; the implementation
`app.api.v1.admin.get_tokens_api` is not among the sources, only its
tests).  `filtered` is the record sequence left by the filter stages;
`total` is its length, computed before pagination; `page` defaults to 1
and is clamped to at least 1; with a numeric `per_page`,
`pages = ceil(total/per_page)` floored at 1 and the items are the window
`[(page-1)*per_page, page*per_page)`; the `"all"` sentinel returns every
record on a single page and round-trips in `per_page`. -/
def queryTokenInventory (filtered : List TokenRecord) (page : Option Int)
    (per_page : Option PyVal) : QueryResult :=
  let total := filtered.length
  let p := (max 1 (page.getD 1)).toNat
  match resolvePerPage per_page with
  | .all =>
    { items := filtered, total := total, page := p,
      per_page := .str "all".data, pages := 1 }
  | .num n =>
    { items := (filtered.drop ((p - 1) * n)).take n, total := total,
      page := p, per_page := .int (n : Int),
      pages := max 1 (ceilDiv total n) }

/-- A concrete inventory of `n` records, as in the pagination tests. -/
def mkRecords (n : Nat) : List TokenRecord :=
  (List.range n).map (fun i =>
    { token := (toString i).data, status := "active".data, quota := 100,
      quota_known := true, note := [] })

/- ========================= THEOREMS ========================= -/

theorem foldl_countStep (s : List Char) (p : Nat × Nat) :
    s.foldl countStep p = (p.1 + asciiCount s, p.2 + nonAsciiCount s) := by
  induction s generalizing p with
  | nil => simp [asciiCount, nonAsciiCount]
  | cons c rest ih =>
    by_cases h : c.toNat ≤ 0x7F
    · simp only [List.foldl_cons, countStep, if_pos h, ih,
        asciiCount, nonAsciiCount, List.countP_cons, Prod.ext_iff]
      simp [h, Nat.not_lt.mpr h]
      omega
    · simp only [List.foldl_cons, countStep, if_neg h, ih,
        asciiCount, nonAsciiCount, List.countP_cons, Prod.ext_iff]
      simp [h, Nat.lt_of_not_le h]
      omega

theorem ascii_nonascii_length (s : List Char) :
    asciiCount s + nonAsciiCount s = s.length := by
  induction s with
  | nil => simp [asciiCount, nonAsciiCount]
  | cons c rest ih =>
    simp only [asciiCount, nonAsciiCount, List.countP_cons, List.length_cons] at *
    by_cases hc : c.toNat ≤ 0x7F
    · simp [hc, Nat.not_lt.mpr hc]; omega
    · simp [hc, Nat.lt_of_not_le hc]; omega

theorem count_tokens_eq (s : List Char) :
    _count_tokens s = (asciiCount s + 3) / 4 + nonAsciiCount s := by
  unfold _count_tokens
  by_cases h : s = []
  · subst h; simp [asciiCount, nonAsciiCount]
  · simp only [if_neg h, foldl_countStep]
    simp

/-- Sanity check that `ceilDiv a 4` is the ceiling of `a / 4`. -/
theorem ceilDiv_four_spec (a : Nat) : a ≤ 4 * ceilDiv a 4 ∧ 4 * ceilDiv a 4 < a + 4 := by
  unfold ceilDiv
  omega

/-- C1: `_count_tokens s` equals `ceil(ascii_count / 4) + non_ascii_count`,
where `ascii_count` counts characters with code point at most `0x7F` and
`non_ascii_count` the rest; the empty string yields `0` (the `if not text`
guard also maps a null input to the empty case). -/
theorem count_tokens_formula :
    (∀ s : List Char,
        _count_tokens s = ceilDiv (asciiCount s) 4 + nonAsciiCount s) ∧
      _count_tokens [] = 0 := by
  refine ⟨fun s => ?_, by decide⟩
  rw [count_tokens_eq]
  unfold ceilDiv
  omega

/-- C10: `_count_tokens` returns `0` exactly on the empty string; every
non-empty string (whitespace-only included) is charged at least one token. -/
theorem count_tokens_eq_zero_iff (s : List Char) :
    _count_tokens s = 0 ↔ s = [] := by
  constructor
  · intro h
    by_contra hne
    rw [count_tokens_eq] at h
    have hlen := ascii_nonascii_length s
    have hpos : 0 < s.length := List.length_pos.mpr hne
    omega
  · intro h; subst h; decide

theorem pyOr_int (k : Int) :
    pyOr (.int k) (.int 1) = .int (if k = 0 then 1 else k) := by
  by_cases hk : k = 0 <;> simp [pyOr, PyVal.truthy, hk]

/-- C2 counterexample: with a truthy non-numeric `success_count` the
`int(success_count or 1)` conversion inside `build_image_usage` raises
`ValueError`, so the core does surface an exception to its caller. -/
theorem build_image_usage_raises_on_non_numeric :
    build_image_usage (PyVal.str "a prompt".data) (PyVal.str "abc".data)
      = .error .valueError := rfl

/-- C2 (amended): `build_image_usage` raises no exception when
`success_count` is missing (`None`), any integer (zero and negatives
included), or falsy (e.g. the empty string); only a truthy value that
integer conversion rejects raises (`ValueError`). -/
theorem build_image_usage_no_raise_amended :
    ∀ (prompt : PyVal) (k : Int),
      (∃ r, build_image_usage prompt (.int k) = .ok r) ∧
      (∃ r, build_image_usage prompt .none = .ok r) ∧
      (∃ r, build_image_usage prompt (.str []) = .ok r) := by
  intro p k
  refine ⟨?_, ⟨_, rfl⟩, ⟨_, rfl⟩⟩
  simp only [build_image_usage, pyOr_int]
  by_cases hk : k = 0 <;> simp [hk, pyToInt]

/-- C4 counterexample: for a non-numeric `success_count` the claim says the
count clamps to 1 and `total_tokens = _count_tokens(p)`, but the code
raises `ValueError` and returns no report at all. -/
theorem build_image_usage_total_claim_false :
    build_image_usage (PyVal.str "hi".data) (PyVal.str "xyz".data)
      = .error .valueError := rfl

/-- C4 (amended): for every prompt `p` and every `success_count` that is an
integer `k` (zero and negatives included) or missing, the report satisfies
`total_tokens = _count_tokens(str(p or "")) * max(1, k)` (missing counts
as 1) and `output_tokens = 0`; a truthy non-numeric `success_count` is not
clamped but raises. -/
theorem build_image_usage_total_amended :
    ∀ (p : PyVal) (k : Int),
      ((build_image_usage p (.int k)).map
          (fun r => (r.total_tokens, r.output_tokens))
        = .ok (_count_tokens (pyStr (pyOr p (.str []))) * (max 1 k).toNat, 0)) ∧
      ((build_image_usage p .none).map
          (fun r => (r.total_tokens, r.output_tokens))
        = .ok (_count_tokens (pyStr (pyOr p (.str []))), 0)) := by
  intro p k
  constructor
  · simp only [build_image_usage, pyOr_int]
    by_cases hk : k = 0
    · subst hk; simp [pyToInt, Except.map]
    · simp [hk, pyToInt, Except.map]
  · simp [build_image_usage, pyToInt, Except.map, pyOr, PyVal.truthy]

theorem occursAt_cons (pat : List Char) (c : Char) (rest : List Char) (n : Nat) :
    occursAt pat (c :: rest) (n + 1) ↔ occursAt pat rest n := by
  simp [occursAt]

theorem occursAt_zero (pat u : List Char) :
    occursAt pat u 0 ↔ u.take pat.length = pat := by
  simp [occursAt]

theorem occursAt_out (pat text : List Char) (i : Nat) (hne : pat ≠ [])
    (hi : text.length ≤ i) : ¬ occursAt pat text i := by
  intro h
  unfold occursAt at h
  rw [List.drop_eq_nil_of_le hi] at h
  simp at h
  exact hne h

theorem noOccur_all (pat text : List Char) (hne : pat ≠ []) (h : noOccur pat text) :
    ∀ i, ¬ occursAt pat text i := by
  intro i
  by_cases hi : i < text.length
  · exact h i hi
  · exact occursAt_out pat text i hne (Nat.le_of_not_lt hi)

theorem findFromAux_none (pat u : List Char) (h : ∀ d, ¬ occursAt pat u d) :
    ∀ i, findFromAux pat u i = Option.none := by
  induction u with
  | nil =>
    intro i
    have hp : pat ≠ [] := fun hpat => h 0 (by simp [occursAt, hpat])
    simp [findFromAux, hp]
  | cons c rest ih =>
    intro i
    have h0 : ¬ (c :: rest).take pat.length = pat := by
      have := h 0
      rwa [occursAt_zero] at this
    simp only [findFromAux, if_neg h0]
    exact ih (fun d => by have := h (d + 1); rwa [occursAt_cons] at this) (i + 1)

theorem findFromAux_first (pat u : List Char) (n : Nat)
    (hocc : occursAt pat u n) (hbef : ∀ d < n, ¬ occursAt pat u d) :
    ∀ i, findFromAux pat u i = some (i + n) := by
  induction u generalizing n with
  | nil =>
    intro i
    have hp : pat = [] := by simpa [occursAt] using hocc.symm
    have hn : n = 0 := by
      by_contra h0
      exact hbef 0 (Nat.pos_of_ne_zero h0) (by simp [occursAt, hp])
    subst hn
    simp [findFromAux, hp]
  | cons c rest ih =>
    intro i
    cases n with
    | zero =>
      rw [occursAt_zero] at hocc
      simp [findFromAux, hocc]
    | succ n =>
      have h0 : ¬ (c :: rest).take pat.length = pat := by
        have := hbef 0 (Nat.succ_pos n)
        rwa [occursAt_zero] at this
      rw [occursAt_cons] at hocc
      have hbef' : ∀ d < n, ¬ occursAt pat rest d := by
        intro d hd
        have := hbef (d + 1) (by omega)
        rwa [occursAt_cons] at this
      simp only [findFromAux, if_neg h0]
      rw [ih n hocc hbef' (i + 1)]
      congr 1
      omega

theorem no_occurs_before_marker (pat g rest : List Char) (hne : pat ≠ [])
    (hov : noSelfOverlap pat) (hg : noOccur pat g) :
    ∀ j < g.length, ¬ occursAt pat (g ++ (pat ++ rest)) j := by
  intro j hj hocc
  unfold occursAt at hocc
  rw [List.drop_append_of_le_length (Nat.le_of_lt hj)] at hocc
  by_cases hcase : pat.length ≤ g.length - j
  · rw [List.take_append_of_le_length (by simp [List.length_drop]; omega)] at hocc
    exact hg j hj hocc
  · have hm : g.length - j < pat.length := Nat.lt_of_not_le hcase
    have hmpos : 0 < g.length - j := by omega
    rw [List.take_append_eq_append_take, List.length_drop,
      List.take_of_length_le (by simp [List.length_drop]; omega),
      List.take_append_of_le_length (by omega)] at hocc
    have hstep := congrArg (List.drop (g.length - j)) hocc
    rw [List.drop_append_eq_append_drop] at hstep
    have h1 : (g.drop j).drop (g.length - j) = [] :=
      List.drop_eq_nil_of_le (by simp [List.length_drop])
    have h2 : (g.length - j) - (g.drop j).length = 0 := by
      simp [List.length_drop]
    rw [h1, h2, List.drop_zero, List.nil_append] at hstep
    exact hov (g.length - j) hm hmpos hstep.symm

theorem findFrom_marker (P g rest pat : List Char) (hne : pat ≠ [])
    (hov : noSelfOverlap pat) (hg : noOccur pat g) :
    findFrom (P ++ (g ++ (pat ++ rest))) pat P.length
      = some (P.length + g.length) := by
  unfold findFrom
  rw [List.drop_left]
  have hocc : occursAt pat (g ++ (pat ++ rest)) g.length := by
    unfold occursAt
    rw [List.drop_left, List.take_left]
  exact findFromAux_first pat _ g.length hocc
    (no_occurs_before_marker pat g rest hne hov hg) P.length

theorem findFrom_none_after (P t pat : List Char) (hne : pat ≠ [])
    (ht : noOccur pat t) :
    findFrom (P ++ t) pat P.length = Option.none := by
  unfold findFrom
  rw [List.drop_left]
  exact findFromAux_none pat t (noOccur_all pat t hne ht) P.length

theorem thinkOpen_ne : thinkOpen ≠ [] := by decide

theorem thinkClose_ne : thinkClose ≠ [] := by decide

theorem thinkOpen_nov : noSelfOverlap thinkOpen := by decide

theorem thinkClose_nov : noSelfOverlap thinkClose := by decide

theorem splitThinkLoop_step (f : Nat) (acc : List (List Char)) (P g b R : List Char)
    (hg : noOccur thinkOpen g) (hb : noOccur thinkClose b) :
    splitThinkLoop (f + 1) acc
        (P ++ (g ++ (thinkOpen ++ (b ++ (thinkClose ++ R))))) P.length
      = splitThinkLoop f (acc ++ [b]) ((P ++ g) ++ R) (P ++ g).length := by
  have h7 : thinkOpen.length = 7 := rfl
  have h8 : thinkClose.length = 8 := rfl
  have hT2 : P ++ (g ++ (thinkOpen ++ (b ++ (thinkClose ++ R))))
      = (P ++ (g ++ thinkOpen)) ++ (b ++ (thinkClose ++ R)) := by
    simp [List.append_assoc]
  have hidx : (P ++ (g ++ thinkOpen)).length = P.length + g.length + 7 := by
    simp only [List.length_append, h7]; omega
  have h1 : findFrom (P ++ (g ++ (thinkOpen ++ (b ++ (thinkClose ++ R)))))
      thinkOpen P.length = some (P.length + g.length) :=
    findFrom_marker P g (b ++ (thinkClose ++ R)) thinkOpen
      thinkOpen_ne thinkOpen_nov hg
  have h2 : findFrom (P ++ (g ++ (thinkOpen ++ (b ++ (thinkClose ++ R)))))
      thinkClose (P.length + g.length + 7)
      = some (P.length + g.length + 7 + b.length) := by
    have := findFrom_marker (P ++ (g ++ thinkOpen)) b R thinkClose
      thinkClose_ne thinkClose_nov hb
    rw [hidx, ← hT2] at this
    exact this
  have h3 : ((P ++ (g ++ (thinkOpen ++ (b ++ (thinkClose ++ R))))).drop
      (P.length + g.length + 7)).take b.length = b := by
    rw [hT2, ← hidx, List.drop_left, List.take_left]
  have h4 : (P ++ (g ++ (thinkOpen ++ (b ++ (thinkClose ++ R))))).take
      (P.length + g.length) = P ++ g := by
    have hT1 : P ++ (g ++ (thinkOpen ++ (b ++ (thinkClose ++ R))))
        = (P ++ g) ++ (thinkOpen ++ (b ++ (thinkClose ++ R))) := by
      simp [List.append_assoc]
    rw [hT1, ← List.length_append P g, List.take_left]
  have h5 : (P ++ (g ++ (thinkOpen ++ (b ++ (thinkClose ++ R))))).drop
      (P.length + g.length + 7 + b.length + 8) = R := by
    have hT3 : P ++ (g ++ (thinkOpen ++ (b ++ (thinkClose ++ R))))
        = (P ++ (g ++ (thinkOpen ++ (b ++ thinkClose)))) ++ R := by
      simp [List.append_assoc]
    have hlen3 : (P ++ (g ++ (thinkOpen ++ (b ++ thinkClose)))).length
        = P.length + g.length + 7 + b.length + 8 := by
      simp only [List.length_append, h7, h8]; omega
    rw [hT3, ← hlen3, List.drop_left]
  simp only [splitThinkLoop, h1, h2, Nat.add_sub_cancel_left]
  rw [h3, h4, h5, List.length_append]

theorem splitThinkLoop_none (fuel : Nat) (acc : List (List Char)) (P t : List Char)
    (ht : noOccur thinkOpen t) :
    splitThinkLoop fuel acc (P ++ t) P.length = (acc, P ++ t) := by
  cases fuel with
  | zero => rfl
  | succ f =>
    simp only [splitThinkLoop, findFrom_none_after P t thinkOpen thinkOpen_ne ht]

theorem splitThinkLoop_unmatched (fuel : Nat) (acc : List (List Char))
    (P u v : List Char) (hu : noOccur thinkOpen u) (hv : noOccur thinkClose v) :
    splitThinkLoop fuel acc (P ++ (u ++ (thinkOpen ++ v))) P.length
      = (acc, P ++ (u ++ (thinkOpen ++ v))) := by
  cases fuel with
  | zero => rfl
  | succ f =>
    have h7 : thinkOpen.length = 7 := rfl
    have hT2 : P ++ (u ++ (thinkOpen ++ v)) = (P ++ (u ++ thinkOpen)) ++ v := by
      simp [List.append_assoc]
    have hidx : (P ++ (u ++ thinkOpen)).length = P.length + u.length + 7 := by
      simp only [List.length_append, h7]; omega
    have h1 : findFrom (P ++ (u ++ (thinkOpen ++ v))) thinkOpen P.length
        = some (P.length + u.length) :=
      findFrom_marker P u v thinkOpen thinkOpen_ne thinkOpen_nov hu
    have h2 : findFrom (P ++ (u ++ (thinkOpen ++ v))) thinkClose
        (P.length + u.length + 7) = Option.none := by
      have := findFrom_none_after (P ++ (u ++ thinkOpen)) v thinkClose
        thinkClose_ne hv
      rw [hidx, ← hT2] at this
      exact this
    simp only [splitThinkLoop, h1, h2]

theorem renderSpans_length (spans : List (List Char × List Char)) (tail : List Char) :
    spans.length ≤ (renderSpans spans tail).length := by
  have h7 : thinkOpen.length = 7 := rfl
  have h8 : thinkClose.length = 8 := rfl
  induction spans with
  | nil => simp [renderSpans]
  | cons p rest ih =>
    obtain ⟨g, b⟩ := p
    simp only [renderSpans, List.length_append, List.length_cons]
    omega

theorem renderSpans_tail_length (spans : List (List Char × List Char))
    (tail : List Char) : tail.length ≤ (renderSpans spans tail).length := by
  induction spans with
  | nil => simp [renderSpans]
  | cons p rest ih =>
    obtain ⟨g, b⟩ := p
    simp only [renderSpans, List.length_append]
    omega

theorem renderSpans_eq_nil (spans : List (List Char × List Char)) (tail : List Char)
    (h : renderSpans spans tail = []) : spans = [] ∧ tail = [] := by
  cases spans with
  | nil => exact ⟨rfl, h⟩
  | cons p rest =>
    obtain ⟨g, b⟩ := p
    exfalso
    have hlen := congrArg List.length h
    have h7 : thinkOpen.length = 7 := rfl
    simp only [renderSpans, List.length_append, List.length_nil] at hlen
    omega

theorem splitThinkLoop_renderSpans :
    ∀ (spans : List (List Char × List Char)) (fuel : Nat) (acc : List (List Char))
      (P tail : List Char),
      spans.length ≤ fuel →
      (∀ p ∈ spans, noOccur thinkOpen p.1 ∧ noOccur thinkClose p.2) →
      noOccur thinkOpen tail →
      splitThinkLoop fuel acc (P ++ renderSpans spans tail) P.length
        = (acc ++ spans.map Prod.snd, P ++ gapsConcat spans tail) := by
  intro spans
  induction spans with
  | nil =>
    intro fuel acc P tail _ _ htail
    simp only [renderSpans, gapsConcat, List.map_nil, List.append_nil]
    exact splitThinkLoop_none fuel acc P tail htail
  | cons p rest ih =>
    intro fuel acc P tail hfuel hwf htail
    obtain ⟨g, b⟩ := p
    cases fuel with
    | zero => simp at hfuel
    | succ f =>
      have hgb := hwf (g, b) (List.mem_cons_self _ _)
      simp only [renderSpans]
      rw [splitThinkLoop_step f acc P g b (renderSpans rest tail) hgb.1 hgb.2]
      rw [ih f (acc ++ [b]) (P ++ g) tail
        (by simp only [List.length_cons] at hfuel; omega)
        (fun q hq => hwf q (List.mem_cons_of_mem _ hq)) htail]
      simp [gapsConcat, List.append_assoc]

theorem splitThinkLoop_render_unmatched :
    ∀ (spans : List (List Char × List Char)) (fuel : Nat) (acc : List (List Char))
      (P u v : List Char),
      spans.length ≤ fuel →
      (∀ p ∈ spans, noOccur thinkOpen p.1 ∧ noOccur thinkClose p.2) →
      noOccur thinkOpen u → noOccur thinkClose v →
      splitThinkLoop fuel acc (P ++ renderSpans spans (u ++ (thinkOpen ++ v)))
          P.length
        = (acc ++ spans.map Prod.snd,
            P ++ gapsConcat spans (u ++ (thinkOpen ++ v))) := by
  intro spans
  induction spans with
  | nil =>
    intro fuel acc P u v _ _ hu hv
    simp only [renderSpans, gapsConcat, List.map_nil, List.append_nil]
    exact splitThinkLoop_unmatched fuel acc P u v hu hv
  | cons p rest ih =>
    intro fuel acc P u v hfuel hwf hu hv
    obtain ⟨g, b⟩ := p
    cases fuel with
    | zero => simp at hfuel
    | succ f =>
      have hgb := hwf (g, b) (List.mem_cons_self _ _)
      simp only [renderSpans]
      rw [splitThinkLoop_step f acc P g b
        (renderSpans rest (u ++ (thinkOpen ++ v))) hgb.1 hgb.2]
      rw [ih f (acc ++ [b]) (P ++ g) u v
        (by simp only [List.length_cons] at hfuel; omega)
        (fun q hq => hwf q (List.mem_cons_of_mem _ hq)) hu hv]
      simp [gapsConcat, List.append_assoc]

theorem split_think_render (spans : List (List Char × List Char)) (tail : List Char)
    (hwf : ∀ p ∈ spans, noOccur thinkOpen p.1 ∧ noOccur thinkClose p.2)
    (htail : noOccur thinkOpen tail) :
    _split_think (renderSpans spans tail)
      = (List.intercalate ['\n'] (spans.map Prod.snd), gapsConcat spans tail) := by
  by_cases hnil : renderSpans spans tail = []
  · obtain ⟨hs, ht⟩ := renderSpans_eq_nil spans tail hnil
    subst hs; subst ht
    simp only [_split_think, renderSpans, gapsConcat, List.map_nil]
    rfl
  · have h := splitThinkLoop_renderSpans spans
      ((renderSpans spans tail).length + 1) [] [] tail
      (by have := renderSpans_length spans tail; omega) hwf htail
    simp only [List.nil_append, List.length_nil] at h
    simp only [_split_think, if_neg hnil, h]

theorem split_think_render_unmatched (spans : List (List Char × List Char))
    (u v : List Char)
    (hwf : ∀ p ∈ spans, noOccur thinkOpen p.1 ∧ noOccur thinkClose p.2)
    (hu : noOccur thinkOpen u) (hv : noOccur thinkClose v) :
    _split_think (renderSpans spans (u ++ (thinkOpen ++ v)))
      = (List.intercalate ['\n'] (spans.map Prod.snd),
          gapsConcat spans (u ++ (thinkOpen ++ v))) := by
  have hnil : renderSpans spans (u ++ (thinkOpen ++ v)) ≠ [] := by
    intro h
    have hlen := congrArg List.length h
    have htl := renderSpans_tail_length spans (u ++ (thinkOpen ++ v))
    have h7 : thinkOpen.length = 7 := rfl
    simp only [List.length_nil] at hlen
    rw [hlen] at htl
    simp only [List.length_append] at htl
    omega
  have h := splitThinkLoop_render_unmatched spans
    ((renderSpans spans (u ++ (thinkOpen ++ v))).length + 1) [] [] u v
    (by have := renderSpans_length spans (u ++ (thinkOpen ++ v)); omega) hwf hu hv
  simp only [List.nil_append, List.length_nil] at h
  simp only [_split_think, if_neg hnil, h]

/-- C5: `_split_think` processes well-formed `<think>...</think>` pairs
left to right: each enclosed body is appended to the reasoning result
(segments joined by newline) and the whole delimited span is removed from
the output, scanning resuming from the removed span's start offset (so
immediately adjacent spans — empty gaps — are handled); when no further
opening marker exists the remaining text is left verbatim in the output,
and an opening marker with no following closing marker stops the
splitting with the unmatched marker and everything around it left
verbatim, with no partial removal; empty input yields `("", "")`. -/
theorem split_think_characterization :
    (_split_think [] = ([], [])) ∧
    (∀ (spans : List (List Char × List Char)) (tl : List Char),
        cleanSpans spans → noOccur thinkOpen tl →
        _split_think (renderSpans spans tl)
          = (List.intercalate ['\n'] (spans.map Prod.snd), gapsConcat spans tl)) ∧
    (∀ (spans : List (List Char × List Char)) (u v : List Char),
        cleanSpans spans → noOccur thinkOpen u → noOccur thinkClose v →
        _split_think (renderSpans spans (u ++ (thinkOpen ++ v)))
          = (List.intercalate ['\n'] (spans.map Prod.snd),
              gapsConcat spans (u ++ (thinkOpen ++ v)))) := by
  refine ⟨rfl, ?_, ?_⟩
  · intro spans tl hc ht
    exact split_think_render spans tl
      (fun p hp => ⟨(hc p hp).1.1, (hc p hp).2.2⟩) ht
  · intro spans u v hc hu hv
    exact split_think_render_unmatched spans u v
      (fun p hp => ⟨(hc p hp).1.1, (hc p hp).2.2⟩) hu hv

/-- Witness for C5: two adjacent spans; the reasoning parts are joined by
a newline and both spans disappear from the visible output. -/
theorem split_think_characterization_witness :
    (cleanSpans [("Hi ".data, "plan".data), ([], "more".data)] ∧
        noOccur thinkOpen " end".data) ∧
      _split_think "Hi <think>plan</think><think>more</think> end".data
        = ("plan\nmore".data, "Hi  end".data) := by
  refine ⟨⟨by decide, by decide⟩, ?_⟩
  have h := split_think_characterization.2.1
    [("Hi ".data, "plan".data), ([], "more".data)] " end".data
    (by decide) (by decide)
  have hr : renderSpans [("Hi ".data, "plan".data), ([], "more".data)] " end".data
      = "Hi <think>plan</think><think>more</think> end".data := by decide
  rw [hr] at h
  rw [h]
  decide

theorem gaps_render_length (spans : List (List Char × List Char)) (tl : List Char) :
    (gapsConcat spans tl).length + (spans.map (fun p => p.2.length)).sum
        + spans.length * (thinkOpen.length + thinkClose.length)
      = (renderSpans spans tl).length := by
  have h7 : thinkOpen.length = 7 := rfl
  have h8 : thinkClose.length = 8 := rfl
  induction spans with
  | nil => simp [gapsConcat, renderSpans]
  | cons p rest ih =>
    obtain ⟨g, b⟩ := p
    simp only [gapsConcat, renderSpans, List.map_cons, List.sum_cons,
      List.length_append, List.length_cons, h7, h8] at ih ⊢
    omega

/-- C6: for text containing exactly `k` well-formed, non-overlapping,
non-adjacent reasoning spans, the visible-text length plus the sum of the
span-content lengths plus the length of the `k` marker pairs equals the
original text length. -/
theorem split_think_length_roundtrip :
    ∀ (spans : List (List Char × List Char)) (tl : List Char),
      cleanSpans spans →
      noOccur thinkOpen tl → noOccur thinkClose tl →
      (∀ p ∈ spans.drop 1, p.1 ≠ []) →
      (_split_think (renderSpans spans tl)).2.length
          + (spans.map (fun p => p.2.length)).sum
          + spans.length * (thinkOpen.length + thinkClose.length)
        = (renderSpans spans tl).length := by
  intro spans tl hc htl _ _
  rw [split_think_render spans tl
    (fun p hp => ⟨(hc p hp).1.1, (hc p hp).2.2⟩) htl]
  exact gaps_render_length spans tl

/-- Witness for C6: two spans, visible text `"A  B  C"` (7 chars), bodies
`"xy"`/`"z"` (3 chars), two marker pairs (30 chars), total 40. -/
theorem split_think_length_roundtrip_witness :
    (cleanSpans [("A ".data, "xy".data), (" B ".data, "z".data)] ∧
        noOccur thinkOpen " C".data ∧ noOccur thinkClose " C".data ∧
        (∀ p ∈ [("A ".data, "xy".data), (" B ".data, "z".data)].drop 1,
          p.1 ≠ ([] : List Char))) ∧
      (_split_think (renderSpans [("A ".data, "xy".data), (" B ".data, "z".data)]
            " C".data)).2.length
          + ([("A ".data, "xy".data), (" B ".data, "z".data)].map
              (fun p => p.2.length)).sum
          + ([("A ".data, "xy".data), (" B ".data, "z".data)].length : Nat)
              * (thinkOpen.length + thinkClose.length)
        = (renderSpans [("A ".data, "xy".data), (" B ".data, "z".data)]
            " C".data).length := by
  refine ⟨⟨by decide, by decide, by decide, by decide⟩, ?_⟩
  exact split_think_length_roundtrip
    [("A ".data, "xy".data), (" B ".data, "z".data)] " C".data
    (by decide) (by decide) (by decide) (by decide)

/-- C3: for all messages and completion texts, the chat usage report
satisfies `completion_tokens = completion_tokens_details.text_tokens +
completion_tokens_details.reasoning_tokens` and
`total_tokens = prompt_tokens + completion_tokens`. -/
theorem build_chat_usage_invariants :
    ∀ (messages : List PyDict) (completion_text : List Char),
      ((build_chat_usage messages completion_text).completion_tokens
          = (build_chat_usage messages completion_text).completion_tokens_details.text_tokens
            + (build_chat_usage messages completion_text).completion_tokens_details.reasoning_tokens) ∧
      ((build_chat_usage messages completion_text).total_tokens
          = (build_chat_usage messages completion_text).prompt_tokens
            + (build_chat_usage messages completion_text).completion_tokens) := by
  intro m c
  exact ⟨rfl, rfl⟩

theorem foldl_contentItemStep :
    ∀ (items : List PyVal) (ps : List (List Char)),
      items.foldl contentItemStep ps = ps ++ items.filterMap itemFragment := by
  intro items
  induction items with
  | nil => intro ps; simp
  | cons it rest ih =>
    intro ps
    simp only [List.foldl_cons, List.filterMap_cons]
    cases it with
    | dict d =>
      simp only [contentItemStep, itemFragment]
      by_cases h1 : isTextTag (dictGet d "type".data)
      · by_cases h2 : hasNonWs (pyStr (pyOr (dictGet d "text".data) (PyVal.str [])))
        · simp [h1, h2, ih, List.append_assoc]
        · simp [h1, h2, ih]
      · simp [h1, ih]
    | none => simp [contentItemStep, itemFragment, ih]
    | int k => simp [contentItemStep, itemFragment, ih]
    | str s => simp [contentItemStep, itemFragment, ih]
    | list xs => simp [contentItemStep, itemFragment, ih]

theorem foldl_messageStep :
    ∀ (msgs : List PyDict) (ps : List (List Char)),
      msgs.foldl messageStep ps = ps ++ specFragments msgs := by
  intro msgs
  induction msgs with
  | nil => intro ps; simp [specFragments]
  | cons m rest ih =>
    intro ps
    have hm : messageStep ps m = ps ++ specMsgFragments m := by
      simp only [messageStep, specMsgFragments]
      cases hcontent : dictGet m "content".data with
      | list items => exact foldl_contentItemStep items ps
      | none =>
        by_cases h2 : hasNonWs (pyStr (pyOr PyVal.none (PyVal.str []))) <;>
          simp [h2]
      | int k =>
        by_cases h2 : hasNonWs (pyStr (pyOr (PyVal.int k) (PyVal.str []))) <;>
          simp [h2]
      | str s =>
        by_cases h2 : hasNonWs (pyStr (pyOr (PyVal.str s) (PyVal.str []))) <;>
          simp [h2]
      | dict d =>
        by_cases h2 : hasNonWs (pyStr (pyOr (PyVal.dict d) (PyVal.str []))) <;>
          simp [h2]
    simp only [List.foldl_cons, specFragments, hm, ih, List.append_assoc]

/-- C7: `estimate_prompt_tokens` collects exactly the fragments the spec
describes (text parts tagged `type == "text"` with non-blank value from
structured content, non-blank plain-string content otherwise), joins them
with newline separators, runs the tokenizer once over the joined string,
always returns `image_tokens = 0`, and returns
`prompt_tokens = text_tokens + image_tokens`. -/
theorem estimate_prompt_tokens_spec :
    ∀ messages : List PyDict,
      ((estimate_prompt_tokens messages).text_tokens
          = _count_tokens (List.intercalate ['\n'] (specFragments messages))) ∧
      ((estimate_prompt_tokens messages).image_tokens = 0) ∧
      ((estimate_prompt_tokens messages).prompt_tokens
          = (estimate_prompt_tokens messages).text_tokens
            + (estimate_prompt_tokens messages).image_tokens) := by
  intro msgs
  refine ⟨?_, rfl, rfl⟩
  simp only [estimate_prompt_tokens]
  rw [foldl_messageStep msgs [], List.nil_append]

/-- C8: the inventory query defaults to `page = 1`, `per_page = 30` when
unspecified, clamps `page` to at least 1, sets
`pages = ceil(total/per_page)` floored at 1, returns the item window
`[(page-1)*per_page, page*per_page)`, and for a page beyond the last
returns an empty item list with `total` and `pages` unchanged. -/
theorem queryTokenInventory_pagination :
    (∀ filtered : List TokenRecord,
        queryTokenInventory filtered Option.none Option.none
          = queryTokenInventory filtered (some 1) (some (PyVal.int 30))) ∧
    (∀ (filtered : List TokenRecord) (pg : Int) (n : Nat), 1 ≤ n →
        queryTokenInventory filtered (some pg) (some (PyVal.int (n : Int)))
          = { items := (filtered.take ((max 1 pg).toNat * n)).drop
                (((max 1 pg).toNat - 1) * n),
              total := filtered.length,
              page := (max 1 pg).toNat,
              per_page := PyVal.int (n : Int),
              pages := max 1 (ceilDiv filtered.length n) }) ∧
    (∀ (filtered : List TokenRecord) (pg : Int) (n : Nat), 1 ≤ n →
        filtered.length ≤ ((max 1 pg).toNat - 1) * n →
        (queryTokenInventory filtered (some pg)
            (some (PyVal.int (n : Int)))).items = []) := by
  refine ⟨fun filtered => rfl, ?_, ?_⟩
  · intro filtered pg n hn
    have hq : 1 ≤ (max 1 pg).toNat := by omega
    have hitems : (filtered.take ((max 1 pg).toNat * n)).drop
          (((max 1 pg).toNat - 1) * n)
        = (filtered.drop (((max 1 pg).toNat - 1) * n)).take n := by
      rw [List.drop_take]
      congr 1
      have h1 : ((max 1 pg).toNat - 1) * n + n = (max 1 pg).toNat * n := by
        have h2 : (max 1 pg).toNat - 1 + 1 = (max 1 pg).toNat := by omega
        calc ((max 1 pg).toNat - 1) * n + n
            = ((max 1 pg).toNat - 1 + 1) * n := by rw [Nat.succ_mul]
          _ = (max 1 pg).toNat * n := by rw [h2]
      omega
    rw [hitems]
    simp [queryTokenInventory, resolvePerPage, Int.toNat_natCast]
  · intro filtered pg n hn hbeyond
    simp only [queryTokenInventory, resolvePerPage, Int.toNat_natCast,
      Option.getD_some]
    rw [List.drop_eq_nil_of_le hbeyond, List.take_nil]

/-- Witness for C8 at the test scenario of
`test_admin_tokens_list_pagination.py`: 40 records, `per_page = 30`,
`page = 99` is beyond the last page and yields no items. -/
theorem queryTokenInventory_pagination_witness :
    ((1 : Nat) ≤ 30 ∧ (mkRecords 40).length ≤ ((max 1 (99 : Int)).toNat - 1) * 30) ∧
      (queryTokenInventory (mkRecords 40) (some 99) (some (PyVal.int 30))).items
        = [] := by
  refine ⟨⟨by decide, by decide⟩, ?_⟩
  exact queryTokenInventory_pagination.2.2 (mkRecords 40) 99 30
    (by decide) (by decide)

/-- C9: with the sentinel string `"all"` as `per_page`, the inventory
query performs no slicing (every filtered record is returned), sets
`pages = 1`, and echoes the sentinel unchanged in `per_page`. -/
theorem queryTokenInventory_all_mode :
    ∀ (filtered : List TokenRecord) (page : Option Int),
      ((queryTokenInventory filtered page (some (PyVal.str "all".data))).items
          = filtered) ∧
      ((queryTokenInventory filtered page (some (PyVal.str "all".data))).total
          = filtered.length) ∧
      ((queryTokenInventory filtered page (some (PyVal.str "all".data))).pages
          = 1) ∧
      ((queryTokenInventory filtered page (some (PyVal.str "all".data))).per_page
          = PyVal.str "all".data) := by
  intro filtered page
  refine ⟨?_, ?_, ?_, ?_⟩ <;> simp [queryTokenInventory, resolvePerPage]

theorem findFromAux_some_bounds (pat : List Char) (hne : pat ≠ []) :
    ∀ (u : List Char) (i j : Nat), findFromAux pat u i = some j →
      i ≤ j ∧ j - i + pat.length ≤ u.length := by
  intro u
  induction u with
  | nil =>
    intro i j h
    simp [findFromAux, hne] at h
  | cons c rest ih =>
    intro i j h
    simp only [findFromAux] at h
    by_cases hc : (c :: rest).take pat.length = pat
    · rw [if_pos hc] at h
      obtain rfl : i = j := by simpa using h
      have hlen := congrArg List.length hc
      simp only [List.length_take, List.length_cons] at hlen
      refine ⟨Nat.le_refl i, ?_⟩
      simp only [List.length_cons]
      omega
    · rw [if_neg hc] at h
      have := ih (i + 1) j h
      simp only [List.length_cons]
      omega

theorem findFrom_some_bounds (text pat : List Char) (start j : Nat)
    (hne : pat ≠ []) (h : findFrom text pat start = some j) :
    start ≤ j ∧ j + pat.length ≤ text.length := by
  unfold findFrom at h
  by_cases hst : start ≤ text.length
  · have := findFromAux_some_bounds pat hne (text.drop start) start j h
    rw [List.length_drop] at this
    omega
  · rw [List.drop_eq_nil_of_le (by omega)] at h
    simp [findFromAux, hne] at h

theorem findFrom_nil (pat : List Char) (hne : pat ≠ []) (st : Nat) :
    findFrom [] pat st = Option.none := by
  unfold findFrom
  simp [findFromAux, hne]

theorem splitThinkLoop_succ_noopen (f : Nat) (acc : List (List Char))
    (output : List Char) (start : Nat)
    (hs : findFrom output thinkOpen start = Option.none) :
    splitThinkLoop (f + 1) acc output start = (acc, output) := by
  simp only [splitThinkLoop, hs]

theorem splitThinkLoop_succ_noclose (f : Nat) (acc : List (List Char))
    (output : List Char) (start s : Nat)
    (hs : findFrom output thinkOpen start = some s)
    (he : findFrom output thinkClose (s + 7) = Option.none) :
    splitThinkLoop (f + 1) acc output start = (acc, output) := by
  simp only [splitThinkLoop, hs, he]

theorem splitThinkLoop_succ_some (f : Nat) (acc : List (List Char))
    (output : List Char) (start s e : Nat)
    (hs : findFrom output thinkOpen start = some s)
    (he : findFrom output thinkClose (s + 7) = some e) :
    splitThinkLoop (f + 1) acc output start
      = splitThinkLoop f (acc ++ [(output.drop (s + 7)).take (e - (s + 7))])
          (output.take s ++ output.drop (e + 8)) s := by
  simp only [splitThinkLoop, hs, he]

/-- The `fuel` of `splitThinkLoop` is an artifact of the embedding: any
two fuel values at least the length of the current output (each
iteration strips a span of at least 15 characters, so the length bounds
the iteration count) produce the same result.  In particular the
`text.length + 1` passed by `_split_think` behaves as the unbounded
`while True` loop of the Python source. -/
theorem splitThinkLoop_fuel_irrelevant :
    ∀ (N f g : Nat) (acc : List (List Char)) (output : List Char) (start : Nat),
      output.length ≤ N → output.length ≤ f → output.length ≤ g →
      splitThinkLoop f acc output start = splitThinkLoop g acc output start := by
  intro N
  induction N with
  | zero =>
    intro f g acc output start hN _ _
    have hout : output = [] := List.length_eq_zero.mp (Nat.le_zero.mp hN)
    subst hout
    cases f <;> cases g <;>
      simp [splitThinkLoop, findFrom_nil thinkOpen thinkOpen_ne]
  | succ N ih =>
    intro f g acc output start hN hf hg
    cases f with
    | zero =>
      have hout : output = [] := by
        have : output.length = 0 := Nat.le_zero.mp hf
        exact List.length_eq_zero.mp this
      subst hout
      cases g <;> simp [splitThinkLoop, findFrom_nil thinkOpen thinkOpen_ne]
    | succ f' =>
      cases g with
      | zero =>
        have hout : output = [] := by
          have : output.length = 0 := Nat.le_zero.mp hg
          exact List.length_eq_zero.mp this
        subst hout
        simp [splitThinkLoop, findFrom_nil thinkOpen thinkOpen_ne]
      | succ g' =>
        cases hs : findFrom output thinkOpen start with
        | none =>
          rw [splitThinkLoop_succ_noopen f' acc output start hs,
            splitThinkLoop_succ_noopen g' acc output start hs]
        | some s =>
          cases he : findFrom output thinkClose (s + 7) with
          | none =>
            rw [splitThinkLoop_succ_noclose f' acc output start s hs he,
              splitThinkLoop_succ_noclose g' acc output start s hs he]
          | some e =>
            have hb1 := findFrom_some_bounds output thinkOpen start s
              thinkOpen_ne hs
            have hb2 := findFrom_some_bounds output thinkClose (s + 7) e
              thinkClose_ne he
            have h7 : thinkOpen.length = 7 := rfl
            have h8 : thinkClose.length = 8 := rfl
            have hshort : (output.take s ++ output.drop (e + 8)).length
                ≤ output.length - 15 := by
              simp only [List.length_append, List.length_take, List.length_drop]
              omega
            rw [splitThinkLoop_succ_some f' acc output start s e hs he,
              splitThinkLoop_succ_some g' acc output start s e hs he]
            exact ih f' g'
              (acc ++ [(output.drop (s + 7)).take (e - (s + 7))])
              (output.take s ++ output.drop (e + 8)) s
              (by omega) (by omega) (by omega)
